import Mathlib

/-!
Verification development for the SCM CICD reconciliation engine
(src/scm_cicd/security_rules.py and src/scm_cicd/address.py).

The two manager classes are embedded as pure Lean functions.  Every call the
manager issues against the remote-object gateway (the SCM SDK client) is
recorded in an event trace, and the gateway itself is an oracle structure:
its fields say, for each possible call, what the remote side would answer.
A gateway response of none models a raised exception that the Python wrapper
catches and converts to its graceful failure value.  The client handle is an
Option: none models the uninitialized-client state.
-/

namespace ScmCicd

/-- A remote object returned by list/fetch: the manager only ever reads its
name and its server-assigned id. -/
structure RemoteObject where
  name : String
  id : String
deriving DecidableEq, Repr

/-- A declared record loaded from a configuration file (an address object or
a security rule).  The three container fields mirror the model fields
folder / snippet / device; all remaining declared fields are kept abstractly
as a key-value list (extra).  A field that is not set is none and is omitted
from the model dump, mirroring model_dump with exclude_none set. -/
structure Record where
  name : String
  folder : Option String := none
  snippet : Option String := none
  device : Option String := none
  extra : List (String × String) := []
deriving DecidableEq, Repr

/-- Python truthiness of an optional string: None and the empty string are
falsy, any other string is truthy. -/
def pyTruthy : Option String → Bool
  | none => false
  | some s => !s.isEmpty

/-- The payload produced by model_dump with exclude_none set: the name, the
container fields that are set, and the remaining declared fields. -/
def Record.dump (r : Record) : List (String × String) :=
  [("name", r.name)]
    ++ (match r.folder with | some f => [("folder", f)] | none => [])
    ++ (match r.snippet with | some s => [("snippet", s)] | none => [])
    ++ (match r.device with | some d => [("device", d)] | none => [])
    ++ r.extra

/-- Container resolution, as in the get-container-info helpers of both
modules: check folder, then snippet, then device, in that order; the first
truthy field wins; none if no container field is truthy. -/
def Record.containerInfo (r : Record) : Option (String × String) :=
  if pyTruthy r.folder then some (r.folder.getD "", "folder")
  else if pyTruthy r.snippet then some (r.snippet.getD "", "snippet")
  else if pyTruthy r.device then some (r.device.getD "", "device")
  else none

/-- The dictionary shape of a commit result: status, job_id and error keys,
each possibly absent. -/
structure CommitDict where
  status : Option String := none
  job_id : Option String := none
  error : Option String := none
deriving DecidableEq, Repr

/-- One call issued against the remote-object gateway (the SCM SDK client). -/
inductive Call where
  | list (container : String) (ctype : String) (exactMatch : Bool)
  | fetch (name : String) (container : String) (ctype : String)
  | create (payload : List (String × String))
  | update (payload : List (String × String))
  | delete (id : String)
  | commit (folders : List String)
deriving DecidableEq, Repr

def Call.isList : Call → Bool
  | .list _ _ _ => true
  | _ => false

def Call.isCommit : Call → Bool
  | .commit _ => true
  | _ => false

/-- A create or update call. -/
def Call.isApply : Call → Bool
  | .create _ => true
  | .update _ => true
  | _ => false

/-- The gateway oracle: what the remote side answers for each call.  A none
(or false) answer models a raised exception, which the Python wrappers catch;
the call itself is still issued and hence still recorded in the trace. -/
structure Gateway where
  listResult : String → String → Bool → List RemoteObject
  fetchResult : String → String → String → Option RemoteObject
  createResp : List (String × String) → Option RemoteObject
  updateResp : List (String × String) → Option RemoteObject
  deleteOk : String → Bool
  commitRaw : List String → Except String CommitDict

/-- Lookup in the name-to-object dictionary built by the dict comprehension
over the list result: membership is by name, and a later object with the
same name overwrites an earlier one, so the last occurrence wins. -/
def mapLookup (objs : List RemoteObject) (n : String) : Option RemoteObject :=
  objs.reverse.find? (fun o => o.name == n)

/-- The commit-success test written inline in apply_rules_from_file and in
_commit_changes: job_id is truthy and status is SUCCESS or absent. -/
def commit_success_check (d : CommitDict) : Bool :=
  pyTruthy d.job_id && (d.status == some "SUCCESS" || d.status == none)

/-- One element of a parsed configuration file: either a mapping that
validates into a record, or a mapping the model validation rejects. -/
inductive RawItem where
  | valid (r : Record)
  | invalid
deriving DecidableEq, Repr

def RawItem.isInvalid : RawItem → Bool
  | .invalid => true
  | .valid _ => false

/-- A configuration file as seen after the open/parse step: missing file,
unparseable content, or a parsed sequence of mappings (a single mapping is
normalized to a one-element sequence upstream). -/
inductive FileInput where
  | notFound
  | parseError
  | parsed (items : List RawItem)
deriving DecidableEq, Repr

/-- Insertion into a set kept as a duplicate-free list in first-insertion
order (models adding to a Python set, up to iteration order). -/
def insertDedup (l : List String) (x : String) : List String :=
  if x ∈ l then l else l ++ [x]

/-- Insertion into the container-keyed grouping dictionary: append the record
to the entry for its key, creating the entry at the end if absent (Python
dict insertion order). -/
def groupInsert : List ((String × String) × List Record) → (String × String) → Record →
    List ((String × String) × List Record)
  | [], k, r => [(k, [r])]
  | g :: gs, k, r =>
      if g.1 = k then (g.1, g.2 ++ [r]) :: gs
      else g :: groupInsert gs k r

/-- The payload of a valid container kind, as validated by the rule-manager
list and fetch wrappers. -/
def validCtype (t : String) : Bool :=
  t == "folder" || t == "snippet" || t == "device"

/-- The single gateway call the per-record apply step issues, given the
existing-object list of the record's container: an update carrying the dump
plus the injected id when the name is found, a create carrying the dump
otherwise. -/
def eventOf (m : List RemoteObject) (r : Record) : Call :=
  match mapLookup m r.name with
  | some ex => Call.update (r.dump ++ [("id", ex.id)])
  | none => Call.create r.dump

/-- Whether the gateway answers the per-record apply call of r with a
response (rather than an exception). -/
def resultOk (gw : Gateway) (m : List RemoteObject) (r : Record) : Bool :=
  match mapLookup m r.name with
  | some ex => (gw.updateResp (r.dump ++ [("id", ex.id)])).isSome
  | none => (gw.createResp r.dump).isSome

/-- Spec-side definition, following the spec wording of testable property 1:
the distinct (container name, container kind) pairs among the records, in
first-occurrence order, skipping records with no resolvable container. -/
def distinctContainerKeys : List Record → List (String × String) → List (String × String)
  | [], acc => acc
  | r :: rest, acc =>
      match r.containerInfo with
      | none => distinctContainerKeys rest acc
      | some k => distinctContainerKeys rest (if k ∈ acc then acc else acc ++ [k])

/-- Total number of records held by a grouping dictionary. -/
def sizeSum (gs : List ((String × String) × List Record)) : Nat :=
  (gs.map (fun g => g.2.length)).sum

/-- Number of records with a resolvable container. -/
def routableCount (rs : List Record) : Nat :=
  (rs.filter (fun r => r.containerInfo.isSome)).length

/-!
Security rules manager, embedded from src/scm_cicd/security_rules.py.
The client field of the manager is the Option Gateway argument; the rulebase
string argument is threaded as in the source, where an invalid value makes
the rulebase-enum conversion raise, which the wrappers catch.
-/

namespace SecRules

/-- Character-list lowercasing (the kernel cannot reduce the builtin
string-level one). -/
def strLower (s : String) : String := ⟨s.data.map Char.toLower⟩

/-- The rulebase strings the enum conversion accepts, after lowercasing;
anything else raises a ValueError inside the calling wrapper's try block. -/
def validRulebase (rb : String) : Bool :=
  strLower rb == "pre" || strLower rb == "post"

/-- load_rules_from_file: missing file, parse error and validation error all
return the empty list; the list comprehension validates every element, so a
single invalid element aborts with a ValidationError that is caught and
collapses the whole load to the empty list. -/
def load_rules_from_file : FileInput → List Record
  | .notFound => []
  | .parseError => []
  | .parsed items =>
      if items.any RawItem.isInvalid then []
      else items.filterMap (fun i => match i with | .valid r => some r | .invalid => none)

/-- create_rule: client check, then the create call with the exclude_none
dump; any exception from the call is caught, yielding none. -/
def create_rule (client : Option Gateway) (r : Record) (rb : String) :
    Option RemoteObject × List Call :=
  match client with
  | none => (none, [])
  | some gw =>
      if validRulebase rb then (gw.createResp r.dump, [Call.create r.dump])
      else (none, [])

/-- update_rule_by_id: no explicit client check in the source; with a null
client the attribute access on it raises and the catch-all returns none
before any call is issued, which the first match arm models. -/
def update_rule_by_id (client : Option Gateway) (payload : List (String × String))
    (rb : String) : Option RemoteObject × List Call :=
  match client with
  | none => (none, [])
  | some gw =>
      if validRulebase rb then (gw.updateResp payload, [Call.update payload])
      else (none, [])

/-- get_rule_by_name: client check, container-type validation, rulebase
conversion, then the fetch call; exceptions yield none. -/
def get_rule_by_name (client : Option Gateway) (name container ctype rb : String) :
    Option RemoteObject × List Call :=
  match client with
  | none => (none, [])
  | some gw =>
      if validCtype ctype then
        if validRulebase rb then
          (gw.fetchResult name container ctype, [Call.fetch name container ctype])
        else (none, [])
      else (none, [])

/-- list_rules: client check, container-type validation, rulebase conversion,
then the list call; exceptions yield the empty list. -/
def list_rules (client : Option Gateway) (container ctype rb : String)
    (exactMatch : Bool) : List RemoteObject × List Call :=
  match client with
  | none => ([], [])
  | some gw =>
      if validCtype ctype then
        if validRulebase rb then
          (gw.listResult container ctype exactMatch, [Call.list container ctype exactMatch])
        else ([], [])
      else ([], [])

/-- delete_rule: client check, fetch by name, then delete by the fetched id;
a failed fetch or an invalid rulebase returns false without a delete call. -/
def delete_rule (client : Option Gateway) (name container ctype rb : String) :
    Bool × List Call :=
  match client with
  | none => (false, [])
  | some gw =>
      let fr := get_rule_by_name client name container ctype rb
      match fr.1 with
      | none => (false, fr.2)
      | some obj =>
          if validRulebase rb then (gw.deleteOk obj.id, fr.2 ++ [Call.delete obj.id])
          else (false, fr.2)

/-- update_rule: client check, container resolution, fetch of the existing
rule, then an update carrying the dump with the fetched id injected. -/
def update_rule (client : Option Gateway) (r : Record) (rb : String) :
    Option RemoteObject × List Call :=
  match client with
  | none => (none, [])
  | some gw =>
      match r.containerInfo with
      | none => (none, [])
      | some (c, t) =>
          let fr := get_rule_by_name client r.name c t rb
          match fr.1 with
          | none => (none, fr.2)
          | some ex =>
              if validRulebase rb then
                (gw.updateResp (r.dump ++ [("id", ex.id)]),
                 fr.2 ++ [Call.update (r.dump ++ [("id", ex.id)])])
              else (none, fr.2)

/-- commit: client check, then the raw commit call; a transport exception is
caught and converted to a FAILED dictionary carrying the message. -/
def commit (client : Option Gateway) (folders : List String) : CommitDict × List Call :=
  match client with
  | none =>
      ({ status := some "FAILED", job_id := none,
         error := some "SCM client not initialized" }, [])
  | some gw =>
      match gw.commitRaw folders with
      | .ok d => (d, [Call.commit folders])
      | .error e =>
          ({ status := some "FAILED", job_id := none, error := some e },
           [Call.commit folders])

/-- The apply-single-rule-with-lookup step: if the name is in the existing
map, update with the dump plus the injected id through update_rule_by_id;
otherwise create.  The boolean is result-is-not-none. -/
def applySingleRuleWithLookup (client : Option Gateway) (r : Record)
    (m : List RemoteObject) (rb : String) : Bool × List Call :=
  match mapLookup m r.name with
  | some ex =>
      let u := update_rule_by_id client (r.dump ++ [("id", ex.id)]) rb
      (u.1.isSome, u.2)
  | none =>
      let c := create_rule client r rb
      (c.1.isSome, c.2)

/-- The grouping loop of the apply-rules step: a record with no resolvable
container flips the success flag to false and is skipped; a routable record
adds its folder to the affected set (when folder-kind) and is appended to
its container group. -/
def groupPhase : List Record → Bool → List String →
    List ((String × String) × List Record) →
    Bool × List String × List ((String × String) × List Record)
  | [], s, f, g => (s, f, g)
  | r :: rest, s, f, g =>
      match r.containerInfo with
      | none => groupPhase rest false f g
      | some (c, t) =>
          groupPhase rest s (if t = "folder" then insertDedup f c else f)
            (groupInsert g (c, t) r)

/-- The per-group record loop: every record of the group is applied against
the group's existing-object list; failures only flip the flag. -/
def applyGroupRecords (client : Option Gateway) (m : List RemoteObject) (rb : String) :
    List Record → Bool × List Call
  | [] => (true, [])
  | r :: rest =>
      let a := applySingleRuleWithLookup client r m rb
      let b := applyGroupRecords client m rb rest
      (a.1 && b.1, a.2 ++ b.2)

/-- The per-container loop of the apply-rules step: one exact-match list
call per group, then every record of the group is applied. -/
def applyGroups (client : Option Gateway) (rb : String) :
    List ((String × String) × List Record) → Bool × List Call
  | [] => (true, [])
  | ((c, t), rs) :: rest =>
      let l := list_rules client c t rb true
      let a := applyGroupRecords client l.1 rb rs
      let b := applyGroups client rb rest
      (a.1 && b.1, l.2 ++ a.2 ++ b.2)

/-- The apply-rules step: grouping phase, then the per-container loop; the
run succeeds when both phases kept their success flags. -/
def applyRules (client : Option Gateway) (rules : List Record) (rb : String) :
    (Bool × List String) × List Call :=
  let p := groupPhase rules true [] []
  let a := applyGroups client rb p.2.2
  ((p.1 && a.1, p.2.1), a.2)

/-- apply_rules_from_file: load, reject an empty load and a null client,
apply, and, when commit was requested, there are affected folders and the
apply succeeded, commit once and fold the commit-success check into the
returned flag. -/
def apply_rules_from_file (client : Option Gateway) (file : FileInput) (rb : String)
    (commitChanges : Bool) : Bool × List Call :=
  let rules := load_rules_from_file file
  if rules.isEmpty then (false, [])
  else
    match client with
    | none => (false, [])
    | some _ =>
        let res := applyRules client rules rb
        if commitChanges && !res.1.2.isEmpty && res.1.1 then
          let cr := commit client res.1.2
          if commit_success_check cr.1 then (res.1.1, res.2 ++ cr.2)
          else (false, res.2 ++ cr.2)
        else (res.1.1, res.2)

end SecRules

/-!
Address manager, embedded from src/scm_cicd/address.py.  The structure
mirrors the rules manager but with three policy differences visible below:
the loader exits the process on a validation error, the grouping loop
returns failure for the whole batch on the first unroutable record, and the
apply loop aborts on the first per-record failure, discarding the
affected-folders set.  The SCM_VALIDATION_MODE environment branch is not
modelled (assumed unset).
-/

namespace Addr

/-- load_addresses_from_file: missing file, parse error, empty data and
non-list data return the empty list; the validation loop exits the process
with code 1 at the first invalid element, modelled as the error case. -/
def load_addresses_from_file : FileInput → Except Nat (List Record)
  | .notFound => .ok []
  | .parseError => .ok []
  | .parsed items =>
      if items.isEmpty then .ok []
      else if items.any RawItem.isInvalid then .error 1
      else .ok (items.filterMap (fun i => match i with | .valid r => some r | .invalid => none))

/-- create_address: client check, then the create call with the exclude_none
dump; exceptions yield none. -/
def create_address (client : Option Gateway) (r : Record) :
    Option RemoteObject × List Call :=
  match client with
  | none => (none, [])
  | some gw => (gw.createResp r.dump, [Call.create r.dump])

/-- update_address: client check, then the update call carrying the given
update-model payload; exceptions yield none. -/
def update_address (client : Option Gateway) (payload : List (String × String)) :
    Option RemoteObject × List Call :=
  match client with
  | none => (none, [])
  | some gw => (gw.updateResp payload, [Call.update payload])

/-- get_address_by_name: client check, then the fetch call; exceptions yield
none. -/
def get_address_by_name (client : Option Gateway) (name container ctype : String) :
    Option RemoteObject × List Call :=
  match client with
  | none => (none, [])
  | some gw => (gw.fetchResult name container ctype, [Call.fetch name container ctype])

/-- list_addresses: client check, then the list call; exceptions yield the
empty list. -/
def list_addresses (client : Option Gateway) (container ctype : String)
    (exactMatch : Bool) : List RemoteObject × List Call :=
  match client with
  | none => ([], [])
  | some gw =>
      (gw.listResult container ctype exactMatch, [Call.list container ctype exactMatch])

/-- delete_address: client check, fetch by name, then delete by the fetched
id; a failed fetch returns false without a delete call. -/
def delete_address (client : Option Gateway) (name container ctype : String) :
    Bool × List Call :=
  match client with
  | none => (false, [])
  | some gw =>
      let fr := get_address_by_name client name container ctype
      match fr.1 with
      | none => (false, fr.2)
      | some a => (gw.deleteOk a.id, fr.2 ++ [Call.delete a.id])

/-- commit: client check, then the raw commit call; a transport exception is
caught and converted to a FAILED dictionary carrying the message. -/
def commit (client : Option Gateway) (folders : List String) : CommitDict × List Call :=
  match client with
  | none =>
      ({ status := some "FAILED", job_id := none,
         error := some "SCM client not initialized" }, [])
  | some gw =>
      match gw.commitRaw folders with
      | .ok d => (d, [Call.commit folders])
      | .error e =>
          ({ status := some "FAILED", job_id := none, error := some e },
           [Call.commit folders])

/-- The apply-single-address-with-lookup step: update with the dump plus the
injected id when the name is in the existing map, create otherwise. -/
def applySingleAddressWithLookup (client : Option Gateway) (r : Record)
    (m : List RemoteObject) : Bool × List Call :=
  match mapLookup m r.name with
  | some ex =>
      let u := update_address client (r.dump ++ [("id", ex.id)])
      (u.1.isSome, u.2)
  | none =>
      let c := create_address client r
      (c.1.isSome, c.2)

/-- The grouping loop of process_addresses: the first record with no
resolvable container makes the whole call return failure immediately, so
none is produced; otherwise folders and container groups accumulate as in
the rules manager. -/
def groupAddrs : List Record → List String → List ((String × String) × List Record) →
    Option (List String × List ((String × String) × List Record))
  | [], f, g => some (f, g)
  | r :: rest, f, g =>
      match r.containerInfo with
      | none => none
      | some (c, t) =>
          groupAddrs rest (if t = "folder" then insertDedup f c else f)
            (groupInsert g (c, t) r)

/-- The per-group record loop of process_addresses: unlike the rules
manager, the first failed record aborts the loop with failure. -/
def applyAddrRecords (client : Option Gateway) (m : List RemoteObject) :
    List Record → Bool × List Call
  | [] => (true, [])
  | r :: rest =>
      let a := applySingleAddressWithLookup client r m
      if a.1 then
        let b := applyAddrRecords client m rest
        (b.1, a.2 ++ b.2)
      else (false, a.2)

/-- The per-container loop of process_addresses: one exact-match list call
per group; a failure inside a group aborts the remaining groups. -/
def applyAddrGroups (client : Option Gateway) :
    List ((String × String) × List Record) → Bool × List Call
  | [] => (true, [])
  | ((c, t), rs) :: rest =>
      let l := list_addresses client c t true
      let a := applyAddrRecords client l.1 rs
      if a.1 then
        let b := applyAddrGroups client rest
        (b.1, l.2 ++ a.2 ++ b.2)
      else (false, l.2 ++ a.2)

/-- _process_addresses: grouping with fail-fast on an unroutable record,
then the per-container loop; any failure returns a false flag together with
an empty affected-folders set. -/
def process_addresses (client : Option Gateway) (addresses : List Record) :
    (Bool × List String) × List Call :=
  match groupAddrs addresses [] [] with
  | none => ((false, []), [])
  | some (folders, gs) =>
      let a := applyAddrGroups client gs
      if a.1 then ((true, folders), a.2) else ((false, []), a.2)

/-- apply_addresses_from_file: load (propagating the process exit of the
loader), reject an empty load, process, and, when processing succeeded,
commit was requested and there are affected folders, commit once; the
returned flag is then the commit-success check of the result. -/
def apply_addresses_from_file (client : Option Gateway) (file : FileInput)
    (commitChanges : Bool) : Except Nat (Bool × List Call) :=
  match load_addresses_from_file file with
  | .error n => .error n
  | .ok addresses =>
      if addresses.isEmpty then .ok (false, [])
      else
        let res := process_addresses client addresses
        if !res.1.1 then .ok (false, res.2)
        else if commitChanges && !res.1.2.isEmpty then
          let cr := commit client res.1.2
          .ok (commit_success_check cr.1, res.2 ++ cr.2)
        else .ok (true, res.2)

end Addr

/-!
Concrete fixtures used by witnesses and counterexamples.
-/

/-- A gateway with an empty remote state that answers every call. -/
def gwOk : Gateway :=
  { listResult := fun _ _ _ => []
    fetchResult := fun _ _ _ => none
    createResp := fun _ => some { name := "obj", id := "new-id" }
    updateResp := fun _ => some { name := "obj", id := "upd-id" }
    deleteOk := fun _ => true
    commitRaw := fun _ => .ok { status := some "SUCCESS", job_id := some "job-1" } }

/-- Like gwOk but every create call raises. -/
def gwFailCreate : Gateway := { gwOk with createResp := fun _ => none }

/-- Like gwOk but the commit transport raises. -/
def gwRaise : Gateway := { gwOk with commitRaw := fun _ => .error "boom" }

/-- A remote object named web-server-1 living in folder DMZ. -/
def objWeb : RemoteObject := { name := "web-server-1", id := "id-1" }

/-- Like gwOk but folder DMZ already holds web-server-1. -/
def gwDMZ : Gateway :=
  { gwOk with
    listResult := fun c t _ => if c = "DMZ" && t = "folder" then [objWeb] else [] }

def recNoContainer : Record := { name := "r0" }

def recA1 : Record := { name := "r1", folder := some "A" }

def recA2 : Record := { name := "r2", folder := some "A" }

def recB1 : Record := { name := "b1", folder := some "B" }

def recX : Record := { name := "ax", folder := some "X" }

def recWeb : Record := { name := "web-server-1", folder := some "DMZ" }

def recSnip : Record := { name := "s1", snippet := some "S" }

/-!
Helper lemmas about the shared combinators.
-/

theorem eventOf_isApply (m : List RemoteObject) (r : Record) :
    (eventOf m r).isApply = true := by
  unfold eventOf
  cases mapLookup m r.name <;> rfl

theorem eventOf_not_isList (m : List RemoteObject) (r : Record) :
    (eventOf m r).isList = false := by
  unfold eventOf
  cases mapLookup m r.name <;> rfl

theorem eventOf_not_isCommit (m : List RemoteObject) (r : Record) :
    (eventOf m r).isCommit = false := by
  unfold eventOf
  cases mapLookup m r.name <;> rfl

theorem mem_insertDedup_self (l : List String) (x : String) : x ∈ insertDedup l x := by
  unfold insertDedup
  by_cases h : x ∈ l
  · simp [h]
  · simp [h]

theorem mem_insertDedup_of_mem (l : List String) (x y : String) (h : y ∈ l) :
    y ∈ insertDedup l x := by
  unfold insertDedup
  by_cases hx : x ∈ l <;> simp [hx, h]

theorem mem_insertDedup (l : List String) (x y : String) (h : y ∈ insertDedup l x) :
    y = x ∨ y ∈ l := by
  unfold insertDedup at h
  by_cases hx : x ∈ l
  · simp [hx] at h
    exact Or.inr h
  · simp [hx] at h
    rcases h with h | h
    · exact Or.inr h
    · exact Or.inl h

theorem groupInsert_keys (gs : List ((String × String) × List Record))
    (k : String × String) (r : Record) :
    (groupInsert gs k r).map (fun g => g.1)
      = if k ∈ gs.map (fun g => g.1) then gs.map (fun g => g.1)
        else gs.map (fun g => g.1) ++ [k] := by
  induction gs with
  | nil => simp [groupInsert]
  | cons g gs ih =>
      by_cases h : g.1 = k
      · simp [groupInsert, h]
      · have hne : ¬k = g.1 := fun hk => h hk.symm
        simp [groupInsert, h, ih]
        by_cases hm : k ∈ gs.map (fun g => g.1) <;> simp [hm, hne]

theorem sizeSum_groupInsert (gs : List ((String × String) × List Record))
    (k : String × String) (r : Record) :
    sizeSum (groupInsert gs k r) = sizeSum gs + 1 := by
  induction gs with
  | nil => simp [groupInsert, sizeSum]
  | cons g gs ih =>
      by_cases h : g.1 = k
      · simp [groupInsert, h, sizeSum]
        omega
      · simp [groupInsert, h, sizeSum] at ih ⊢
        omega

theorem groupInsert_mem_new (gs : List ((String × String) × List Record))
    (k : String × String) (r : Record) :
    ∃ g ∈ groupInsert gs k r, g.1 = k ∧ r ∈ g.2 := by
  induction gs with
  | nil => exact ⟨(k, [r]), by simp [groupInsert]⟩
  | cons g gs ih =>
      by_cases h : g.1 = k
      · exact ⟨(g.1, g.2 ++ [r]), by simp [groupInsert, h]⟩
      · obtain ⟨g', hg', hk, hr⟩ := ih
        exact ⟨g', by simp [groupInsert, h, hg'], hk, hr⟩

theorem groupInsert_mem_old (gs : List ((String × String) × List Record))
    (k : String × String) (r : Record) (k' : String × String) (r' : Record)
    (h : ∃ g ∈ gs, g.1 = k' ∧ r' ∈ g.2) :
    ∃ g ∈ groupInsert gs k r, g.1 = k' ∧ r' ∈ g.2 := by
  induction gs with
  | nil => simp at h
  | cons g gs ih =>
      obtain ⟨g0, hg0, hk0, hr0⟩ := h
      rcases List.mem_cons.mp hg0 with hg0 | hg0
      · subst hg0
        by_cases h1 : g0.1 = k
        · exact ⟨(g0.1, g0.2 ++ [r]), by simp [groupInsert, h1], hk0, by simp [hr0]⟩
        · exact ⟨g0, by simp [groupInsert, h1], hk0, hr0⟩
      · by_cases h1 : g.1 = k
        · exact ⟨g0, by simp [groupInsert, h1, hg0], hk0, hr0⟩
        · obtain ⟨g', hg', hk', hr'⟩ := ih ⟨g0, hg0, hk0, hr0⟩
          exact ⟨g', by simp [groupInsert, h1, hg'], hk', hr'⟩

theorem groupInsert_key_pred (k : String × String) (r : Record)
    (P : String × String → Prop) (hk : P k) :
    ∀ gs : List ((String × String) × List Record),
      (∀ g ∈ gs, P g.1) → ∀ g ∈ groupInsert gs k r, P g.1 := by
  intro gs
  induction gs with
  | nil =>
      intro _ g' hg'
      simp [groupInsert] at hg'
      rw [hg']
      exact hk
  | cons g gs ih =>
      intro hgs g' hg'
      simp only [groupInsert] at hg'
      by_cases h : g.1 = k
      · rw [if_pos h] at hg'
        rcases List.mem_cons.mp hg' with hg' | hg'
        · rw [hg']
          exact hgs g (List.mem_cons_self g gs)
        · exact hgs g' (List.mem_cons_of_mem g hg')
      · rw [if_neg h] at hg'
        rcases List.mem_cons.mp hg' with hg' | hg'
        · rw [hg']
          exact hgs g (List.mem_cons_self g gs)
        · exact ih (fun g0 hg0 => hgs g0 (List.mem_cons_of_mem g hg0)) g' hg'

theorem containerInfo_valid_ctype (r : Record) (c t : String)
    (h : r.containerInfo = some (c, t)) : validCtype t = true := by
  unfold Record.containerInfo at h
  by_cases h1 : pyTruthy r.folder = true
  · simp [h1] at h
    simp [← h.2, validCtype]
  · by_cases h2 : pyTruthy r.snippet = true
    · simp [h1, h2] at h
      simp [← h.2, validCtype]
    · by_cases h3 : pyTruthy r.device = true
      · simp [h1, h2, h3] at h
        simp [← h.2, validCtype]
      · simp [h1, h2, h3] at h

theorem sizeSum_eq_zero (gs : List ((String × String) × List Record))
    (h : gs.all (fun g => g.2.isEmpty) = true) : sizeSum gs = 0 := by
  induction gs with
  | nil => rfl
  | cons g gs ih =>
      simp only [List.all_cons, Bool.and_eq_true] at h
      have h1 : g.2.length = 0 := by
        have h0 := h.1
        simp [List.isEmpty_iff] at h0
        simp [h0]
      have h2 := ih h.2
      simp only [sizeSum, List.map_cons, List.sum_cons] at h2 ⊢
      omega

/-!
Lemmas about the grouping phase of the security-rules manager.
-/

namespace SecRules

theorem groupPhase_false (l : List Record) :
    ∀ f g, (groupPhase l false f g).1 = false := by
  induction l with
  | nil => intro f g; rfl
  | cons r rest ih =>
      intro f g
      unfold groupPhase
      cases h : r.containerInfo with
      | none => exact ih f g
      | some ct => exact ih _ _

theorem groupPhase_unroutable (l : List Record) :
    ∀ s f g, (∃ r ∈ l, r.containerInfo = none) → (groupPhase l s f g).1 = false := by
  induction l with
  | nil => intro s f g h; simp at h
  | cons r rest ih =>
      intro s f g h
      unfold groupPhase
      cases hr : r.containerInfo with
      | none => exact groupPhase_false rest f g
      | some ct =>
          obtain ⟨r0, hr0, hnone⟩ := h
          rcases List.mem_cons.mp hr0 with hr0 | hr0
          · rw [hr0] at hnone
            rw [hnone] at hr
            cases hr
          · exact ih s _ _ ⟨r0, hr0, hnone⟩

theorem groupPhase_folders_mono (l : List Record) :
    ∀ s f g c, c ∈ f → c ∈ (groupPhase l s f g).2.1 := by
  induction l with
  | nil => intro s f g c h; exact h
  | cons r rest ih =>
      intro s f g c h
      unfold groupPhase
      cases hr : r.containerInfo with
      | none => exact ih false f g c h
      | some ct =>
          cases ct with
          | mk cc tt =>
              by_cases ht : tt = "folder"
              · simpa [ht] using ih s _ _ c (mem_insertDedup_of_mem f cc c h)
              · simpa [ht] using ih s _ _ c h

theorem groupPhase_folder_mem (l : List Record) :
    ∀ s f g (r : Record) (c : String), r ∈ l → r.containerInfo = some (c, "folder") →
      c ∈ (groupPhase l s f g).2.1 := by
  induction l with
  | nil => intro s f g r c h; simp at h
  | cons r0 rest ih =>
      intro s f g r c hmem hinfo
      rcases List.mem_cons.mp hmem with hmem | hmem
      · subst hmem
        unfold groupPhase
        rw [hinfo]
        simp only
        exact groupPhase_folders_mono rest s _ _ c (by simp [mem_insertDedup_self])
      · unfold groupPhase
        cases hr : r0.containerInfo with
        | none => exact ih false f g r c hmem hinfo
        | some ct => exact ih s _ _ r c hmem hinfo

theorem groupPhase_keys (l : List Record) :
    ∀ s f g, (groupPhase l s f g).2.2.map (fun g => g.1)
      = distinctContainerKeys l (g.map (fun g => g.1)) := by
  induction l with
  | nil => intro s f g; rfl
  | cons r rest ih =>
      intro s f g
      unfold groupPhase distinctContainerKeys
      cases hr : r.containerInfo with
      | none => exact ih false f g
      | some ct =>
          rw [ih s _ _]
          rw [groupInsert_keys]

theorem groupPhase_sizeSum (l : List Record) :
    ∀ s f g, sizeSum (groupPhase l s f g).2.2 = sizeSum g + routableCount l := by
  induction l with
  | nil => intro s f g; simp [groupPhase, routableCount]
  | cons r rest ih =>
      intro s f g
      unfold groupPhase
      cases hr : r.containerInfo with
      | none =>
          rw [ih false f g]
          simp [routableCount, List.filter_cons, hr]
      | some ct =>
          rw [ih s _ _]
          rw [sizeSum_groupInsert]
          simp [routableCount, List.filter_cons, hr]
          omega

theorem groupPhase_mem_mono (l : List Record) :
    ∀ s f g k (r : Record), (∃ gr ∈ g, gr.1 = k ∧ r ∈ gr.2) →
      ∃ gr ∈ (groupPhase l s f g).2.2, gr.1 = k ∧ r ∈ gr.2 := by
  induction l with
  | nil => intro s f g k r h; exact h
  | cons r0 rest ih =>
      intro s f g k r h
      unfold groupPhase
      cases hr : r0.containerInfo with
      | none => exact ih false f g k r h
      | some ct => exact ih s _ _ k r (groupInsert_mem_old _ _ _ _ _ h)

theorem groupPhase_mem (l : List Record) :
    ∀ s f g (r : Record) k, r ∈ l → r.containerInfo = some k →
      ∃ gr ∈ (groupPhase l s f g).2.2, gr.1 = k ∧ r ∈ gr.2 := by
  induction l with
  | nil => intro s f g r k h; simp at h
  | cons r0 rest ih =>
      intro s f g r k hmem hinfo
      rcases List.mem_cons.mp hmem with hmem | hmem
      · subst hmem
        unfold groupPhase
        rw [hinfo]
        simp only
        exact groupPhase_mem_mono rest _ _ _ k r (groupInsert_mem_new g k r)
      · unfold groupPhase
        cases hr : r0.containerInfo with
        | none => exact ih false f g r k hmem hinfo
        | some ct => exact ih s _ _ r k hmem hinfo

theorem groupPhase_ctype_valid (l : List Record) :
    ∀ s f g, (∀ gr ∈ g, validCtype gr.1.2 = true) →
      ∀ gr ∈ (groupPhase l s f g).2.2, validCtype gr.1.2 = true := by
  induction l with
  | nil => intro s f g h; exact h
  | cons r rest ih =>
      intro s f g h
      unfold groupPhase
      cases hr : r.containerInfo with
      | none => exact ih false f g h
      | some ct =>
          refine ih s _ _ ?_
          refine groupInsert_key_pred ct r (fun k => validCtype k.2 = true) ?_ g h
          cases ct with
          | mk cc tt => exact containerInfo_valid_ctype r cc tt hr

theorem groupPhase_folders_sub (l : List Record) :
    ∀ s f g c, c ∈ (groupPhase l s f g).2.1 →
      c ∈ f ∨ ∃ r ∈ l, r.containerInfo = some (c, "folder") := by
  induction l with
  | nil => intro s f g c h; exact Or.inl h
  | cons r rest ih =>
      intro s f g c h
      unfold groupPhase at h
      cases hr : r.containerInfo with
      | none =>
          rw [hr] at h
          rcases ih false f g c h with h | ⟨r0, hr0, h0⟩
          · exact Or.inl h
          · exact Or.inr ⟨r0, List.mem_cons_of_mem r hr0, h0⟩
      | some ct =>
          rw [hr] at h
          cases ct with
          | mk cc tt =>
              by_cases ht : tt = "folder"
              · subst ht
                simp only [if_pos rfl] at h
                rcases ih s _ _ c h with h | ⟨r0, hr0, h0⟩
                · rcases mem_insertDedup f cc c h with h | h
                  · exact Or.inr ⟨r, List.mem_cons_self r rest, by rw [hr, h]⟩
                  · exact Or.inl h
                · exact Or.inr ⟨r0, List.mem_cons_of_mem r hr0, h0⟩
              · simp only [if_neg ht] at h
                rcases ih s _ _ c h with h | ⟨r0, hr0, h0⟩
                · exact Or.inl h
                · exact Or.inr ⟨r0, List.mem_cons_of_mem r hr0, h0⟩

end SecRules

/-!
Generic filtering helpers and call-kind facts.
-/

theorem filter_eq_nil_of_false {α} (p : α → Bool) (l : List α)
    (h : ∀ a ∈ l, p a = false) : l.filter p = [] := by
  induction l with
  | nil => rfl
  | cons a l ih =>
      simp [List.filter_cons, h a (List.mem_cons_self a l),
        ih (fun x hx => h x (List.mem_cons_of_mem a hx))]

theorem filter_eq_self_of_true {α} (p : α → Bool) (l : List α)
    (h : ∀ a ∈ l, p a = true) : l.filter p = l := by
  induction l with
  | nil => rfl
  | cons a l ih =>
      simp [List.filter_cons, h a (List.mem_cons_self a l),
        ih (fun x hx => h x (List.mem_cons_of_mem a hx))]

theorem isApply_not_isCommit (c : Call) (h : c.isApply = true) : c.isCommit = false := by
  cases c <;> simp_all [Call.isApply, Call.isCommit]

theorem isApply_not_isList (c : Call) (h : c.isApply = true) : c.isList = false := by
  cases c <;> simp_all [Call.isApply, Call.isList]

/-!
Lemmas about the apply loops of the security-rules manager.
-/

namespace SecRules

theorem applySingle_eq (gw : Gateway) (r : Record) (m : List RemoteObject) (rb : String)
    (h : validRulebase rb = true) :
    applySingleRuleWithLookup (some gw) r m rb = (resultOk gw m r, [eventOf m r]) := by
  unfold applySingleRuleWithLookup resultOk eventOf update_rule_by_id create_rule
  cases mapLookup m r.name <;> simp [h]

theorem applySingle_applyOnly (client : Option Gateway) (r : Record)
    (m : List RemoteObject) (rb : String) :
    ∀ c ∈ (applySingleRuleWithLookup client r m rb).2, c.isApply = true := by
  unfold applySingleRuleWithLookup update_rule_by_id create_rule
  cases client with
  | none => cases mapLookup m r.name <;> simp
  | some gw =>
      by_cases hrb : validRulebase rb = true <;>
        cases mapLookup m r.name <;> simp [hrb, Call.isApply]

theorem applyGroupRecords_eq (gw : Gateway) (m : List RemoteObject) (rb : String)
    (rs : List Record) (h : validRulebase rb = true) :
    applyGroupRecords (some gw) m rb rs = (rs.all (resultOk gw m), rs.map (eventOf m)) := by
  induction rs with
  | nil => rfl
  | cons r rest ih =>
      unfold applyGroupRecords
      rw [applySingle_eq gw r m rb h, ih]
      simp [List.all_cons]

theorem applyGroupRecords_applyOnly (client : Option Gateway) (m : List RemoteObject)
    (rb : String) (rs : List Record) :
    ∀ c ∈ (applyGroupRecords client m rb rs).2, c.isApply = true := by
  induction rs with
  | nil => simp [applyGroupRecords]
  | cons r rest ih =>
      unfold applyGroupRecords
      intro c hc
      simp only [List.mem_append] at hc
      rcases hc with hc | hc
      · exact applySingle_applyOnly client r m rb c hc
      · exact ih c hc

theorem list_rules_trace_commitFree (client : Option Gateway) (c t rb : String)
    (em : Bool) : (list_rules client c t rb em).2.filter Call.isCommit = [] := by
  unfold list_rules
  cases client with
  | none => rfl
  | some gw =>
      by_cases hv : validCtype t = true <;> by_cases hrb : validRulebase rb = true <;>
        simp [hv, hrb, Call.isCommit]

theorem applyGroups_commitFree (client : Option Gateway) (rb : String)
    (gs : List ((String × String) × List Record)) :
    (applyGroups client rb gs).2.filter Call.isCommit = [] := by
  induction gs with
  | nil => simp [applyGroups]
  | cons g gs ih =>
      obtain ⟨⟨c, t⟩, rs⟩ := g
      unfold applyGroups
      simp only [List.filter_append]
      rw [list_rules_trace_commitFree client c t rb true]
      rw [filter_eq_nil_of_false Call.isCommit _
        (fun x hx => isApply_not_isCommit x
          (applyGroupRecords_applyOnly client _ rb rs x hx))]
      rw [ih]
      rfl

theorem applyGroups_fst (gw : Gateway) (rb : String)
    (gs : List ((String × String) × List Record)) (hrb : validRulebase rb = true)
    (hct : ∀ g ∈ gs, validCtype g.1.2 = true) :
    (applyGroups (some gw) rb gs).1
      = gs.all (fun g => g.2.all (resultOk gw (gw.listResult g.1.1 g.1.2 true))) := by
  induction gs with
  | nil => rfl
  | cons g gs ih =>
      obtain ⟨⟨c, t⟩, rs⟩ := g
      have hv : validCtype t = true := hct ((c, t), rs) (List.mem_cons_self _ _)
      have ihh := ih (fun g hg => hct g (List.mem_cons_of_mem _ hg))
      unfold applyGroups
      simp only [list_rules, hv, hrb, if_true]
      rw [applyGroupRecords_eq gw _ rb rs hrb]
      simp only [List.all_cons]
      rw [ihh]

theorem applyGroups_listEvents (gw : Gateway) (rb : String)
    (gs : List ((String × String) × List Record)) (hrb : validRulebase rb = true)
    (hct : ∀ g ∈ gs, validCtype g.1.2 = true) :
    (applyGroups (some gw) rb gs).2.filter Call.isList
      = gs.map (fun g => Call.list g.1.1 g.1.2 true) := by
  induction gs with
  | nil => rfl
  | cons g gs ih =>
      obtain ⟨⟨c, t⟩, rs⟩ := g
      have hv : validCtype t = true := hct ((c, t), rs) (List.mem_cons_self _ _)
      have ihh := ih (fun g hg => hct g (List.mem_cons_of_mem _ hg))
      unfold applyGroups
      simp only [list_rules, hv, hrb, if_true]
      rw [applyGroupRecords_eq gw _ rb rs hrb]
      simp only [List.filter_append]
      rw [filter_eq_nil_of_false Call.isList (rs.map (eventOf _))
        (fun x hx => by
          obtain ⟨r0, _, hr0⟩ := List.mem_map.mp hx
          rw [← hr0]
          exact eventOf_not_isList _ r0)]
      rw [ihh]
      simp [Call.isList]

theorem applyGroups_applyCount (gw : Gateway) (rb : String)
    (gs : List ((String × String) × List Record)) (hrb : validRulebase rb = true)
    (hct : ∀ g ∈ gs, validCtype g.1.2 = true) :
    ((applyGroups (some gw) rb gs).2.filter Call.isApply).length = sizeSum gs := by
  induction gs with
  | nil => rfl
  | cons g gs ih =>
      obtain ⟨⟨c, t⟩, rs⟩ := g
      have hv : validCtype t = true := hct ((c, t), rs) (List.mem_cons_self _ _)
      have ihh := ih (fun g hg => hct g (List.mem_cons_of_mem _ hg))
      unfold applyGroups
      simp only [list_rules, hv, hrb, if_true]
      rw [applyGroupRecords_eq gw _ rb rs hrb]
      simp only [List.filter_append, List.length_append]
      rw [filter_eq_self_of_true Call.isApply (rs.map (eventOf _))
        (fun x hx => by
          obtain ⟨r0, _, hr0⟩ := List.mem_map.mp hx
          rw [← hr0]
          exact eventOf_isApply _ r0)]
      rw [ihh]
      simp [Call.isApply, sizeSum]

end SecRules

/-!
Lemmas about the loops of the address manager.
-/

namespace Addr

theorem applySingleAddress_eq (gw : Gateway) (r : Record) (m : List RemoteObject) :
    applySingleAddressWithLookup (some gw) r m = (resultOk gw m r, [eventOf m r]) := by
  unfold applySingleAddressWithLookup resultOk eventOf update_address create_address
  cases mapLookup m r.name <;> simp

theorem applySingleAddress_applyOnly (client : Option Gateway) (r : Record)
    (m : List RemoteObject) :
    ∀ c ∈ (applySingleAddressWithLookup client r m).2, c.isApply = true := by
  unfold applySingleAddressWithLookup update_address create_address
  cases client <;> cases mapLookup m r.name <;> simp [Call.isApply]

theorem applyAddrRecords_fst (gw : Gateway) (m : List RemoteObject) (rs : List Record) :
    (applyAddrRecords (some gw) m rs).1 = rs.all (resultOk gw m) := by
  induction rs with
  | nil => rfl
  | cons r rest ih =>
      unfold applyAddrRecords
      rw [applySingleAddress_eq]
      cases h : resultOk gw m r <;> simp [h, ih, List.all_cons]

theorem applyAddrRecords_ok (gw : Gateway) (m : List RemoteObject) (rs : List Record)
    (h : rs.all (resultOk gw m) = true) :
    applyAddrRecords (some gw) m rs = (true, rs.map (eventOf m)) := by
  induction rs with
  | nil => rfl
  | cons r rest ih =>
      simp only [List.all_cons, Bool.and_eq_true] at h
      unfold applyAddrRecords
      rw [applySingleAddress_eq]
      simp [h.1, ih h.2]

theorem applyAddrRecords_applyOnly (client : Option Gateway) (m : List RemoteObject)
    (rs : List Record) :
    ∀ c ∈ (applyAddrRecords client m rs).2, c.isApply = true := by
  induction rs with
  | nil => simp [applyAddrRecords]
  | cons r rest ih =>
      unfold applyAddrRecords
      by_cases h : (applySingleAddressWithLookup client r m).1 = true
      · simp only [h, if_true]
        intro c hc
        rcases List.mem_append.mp hc with hc | hc
        · exact applySingleAddress_applyOnly client r m c hc
        · exact ih c hc
      · simp only [Bool.not_eq_true] at h
        simp only [h, Bool.false_eq_true, if_false]
        intro c hc
        exact applySingleAddress_applyOnly client r m c hc

theorem list_addresses_trace_commitFree (client : Option Gateway) (c t : String)
    (em : Bool) : (list_addresses client c t em).2.filter Call.isCommit = [] := by
  unfold list_addresses
  cases client <;> simp [Call.isCommit]

theorem applyAddrGroups_commitFree (client : Option Gateway)
    (gs : List ((String × String) × List Record)) :
    (applyAddrGroups client gs).2.filter Call.isCommit = [] := by
  induction gs with
  | nil => simp [applyAddrGroups]
  | cons g gs ih =>
      obtain ⟨⟨c, t⟩, rs⟩ := g
      unfold applyAddrGroups
      by_cases h : (applyAddrRecords client (list_addresses client c t true).1 rs).1 = true
      · simp only [h, if_true, List.filter_append]
        rw [list_addresses_trace_commitFree client c t true]
        rw [filter_eq_nil_of_false Call.isCommit _
          (fun x hx => isApply_not_isCommit x
            (applyAddrRecords_applyOnly client _ rs x hx))]
        rw [ih]
        rfl
      · simp only [Bool.not_eq_true] at h
        simp only [h, Bool.false_eq_true, if_false, List.filter_append]
        rw [list_addresses_trace_commitFree client c t true]
        rw [filter_eq_nil_of_false Call.isCommit _
          (fun x hx => isApply_not_isCommit x
            (applyAddrRecords_applyOnly client _ rs x hx))]
        rfl

theorem applyAddrGroups_fst (gw : Gateway)
    (gs : List ((String × String) × List Record)) :
    (applyAddrGroups (some gw) gs).1
      = gs.all (fun g => g.2.all (resultOk gw (gw.listResult g.1.1 g.1.2 true))) := by
  induction gs with
  | nil => rfl
  | cons g gs ih =>
      obtain ⟨⟨c, t⟩, rs⟩ := g
      unfold applyAddrGroups
      simp only [list_addresses]
      cases hall : rs.all (resultOk gw (gw.listResult c t true)) with
      | false =>
          have hfst : (applyAddrRecords (some gw) (gw.listResult c t true) rs).1 = false := by
            rw [applyAddrRecords_fst, hall]
          simp [hfst, List.all_cons, hall]
      | true =>
          have hfst : (applyAddrRecords (some gw) (gw.listResult c t true) rs).1 = true := by
            rw [applyAddrRecords_fst, hall]
          simp [hfst, List.all_cons, hall, ih]

theorem applyAddrGroups_listEvents_ok (gw : Gateway)
    (gs : List ((String × String) × List Record))
    (h : (applyAddrGroups (some gw) gs).1 = true) :
    (applyAddrGroups (some gw) gs).2.filter Call.isList
      = gs.map (fun g => Call.list g.1.1 g.1.2 true) := by
  induction gs with
  | nil => rfl
  | cons g gs ih =>
      obtain ⟨⟨c, t⟩, rs⟩ := g
      rw [applyAddrGroups_fst] at h
      simp only [List.all_cons, Bool.and_eq_true] at h
      have hall : rs.all (resultOk gw (gw.listResult c t true)) = true := h.1
      have hrest : (applyAddrGroups (some gw) gs).1 = true := by
        rw [applyAddrGroups_fst]; exact h.2
      unfold applyAddrGroups
      simp only [list_addresses]
      rw [applyAddrRecords_ok gw _ rs hall]
      simp only [if_true, List.filter_append]
      rw [filter_eq_nil_of_false Call.isList (rs.map (eventOf _))
        (fun x hx => by
          obtain ⟨r0, _, hr0⟩ := List.mem_map.mp hx
          rw [← hr0]
          exact eventOf_not_isList _ r0)]
      rw [ih hrest]
      simp [Call.isList]

theorem applyAddrGroups_none (gs : List ((String × String) × List Record)) :
    applyAddrGroups none gs = (gs.all (fun g => g.2.isEmpty), []) := by
  induction gs with
  | nil => rfl
  | cons g gs ih =>
      obtain ⟨⟨c, t⟩, rs⟩ := g
      cases rs with
      | nil => simp [applyAddrGroups, applyAddrRecords, list_addresses, ih, List.all_cons]
      | cons r rest =>
          simp [applyAddrGroups, applyAddrRecords, applySingleAddressWithLookup,
            mapLookup, create_address, list_addresses, List.all_cons]

theorem groupAddrs_unroutable (l : List Record) :
    ∀ f g, (∃ r ∈ l, r.containerInfo = none) → groupAddrs l f g = none := by
  induction l with
  | nil => intro f g h; simp at h
  | cons r rest ih =>
      intro f g h
      unfold groupAddrs
      cases hr : r.containerInfo with
      | none => rfl
      | some ct =>
          obtain ⟨r0, hr0, h0⟩ := h
          rcases List.mem_cons.mp hr0 with hr0 | hr0
          · rw [hr0] at h0
            rw [h0] at hr
            cases hr
          · exact ih _ _ ⟨r0, hr0, h0⟩

theorem groupAddrs_keys (l : List Record) :
    ∀ f g f' g', groupAddrs l f g = some (f', g') →
      g'.map (fun g => g.1) = distinctContainerKeys l (g.map (fun g => g.1)) := by
  induction l with
  | nil =>
      intro f g f' g' h
      simp [groupAddrs] at h
      rw [← h.2]
      rfl
  | cons r rest ih =>
      intro f g f' g' h
      unfold groupAddrs at h
      cases hr : r.containerInfo with
      | none => rw [hr] at h; cases h
      | some ct =>
          rw [hr] at h
          unfold distinctContainerKeys
          rw [hr]
          rw [ih _ _ _ _ h]
          rw [groupInsert_keys]

theorem groupAddrs_sizeSum (l : List Record) :
    ∀ f g f' g', groupAddrs l f g = some (f', g') →
      sizeSum g' = sizeSum g + l.length := by
  induction l with
  | nil =>
      intro f g f' g' h
      simp [groupAddrs] at h
      rw [← h.2]
      simp
  | cons r rest ih =>
      intro f g f' g' h
      unfold groupAddrs at h
      cases hr : r.containerInfo with
      | none => rw [hr] at h; cases h
      | some ct =>
          rw [hr] at h
          have := ih _ _ _ _ h
          rw [sizeSum_groupInsert] at this
          rw [this]
          simp
          omega

theorem groupAddrs_folders_mono (l : List Record) :
    ∀ f g f' g' c, groupAddrs l f g = some (f', g') → c ∈ f → c ∈ f' := by
  induction l with
  | nil =>
      intro f g f' g' c h hc
      simp [groupAddrs] at h
      rw [← h.1]
      exact hc
  | cons r rest ih =>
      intro f g f' g' c h hc
      unfold groupAddrs at h
      cases hr : r.containerInfo with
      | none => rw [hr] at h; cases h
      | some ct =>
          rw [hr] at h
          cases ct with
          | mk cc tt =>
              by_cases ht : tt = "folder"
              · rw [ht] at h
                simp only [if_pos rfl] at h
                exact ih _ _ _ _ c h (mem_insertDedup_of_mem f cc c hc)
              · simp only [if_neg ht] at h
                exact ih _ _ _ _ c h hc

theorem groupAddrs_folder_mem (l : List Record) :
    ∀ f g f' g' (r : Record) c, groupAddrs l f g = some (f', g') →
      r ∈ l → r.containerInfo = some (c, "folder") → c ∈ f' := by
  induction l with
  | nil => intro f g f' g' r c _ h; simp at h
  | cons r0 rest ih =>
      intro f g f' g' r c h hmem hinfo
      rcases List.mem_cons.mp hmem with hmem | hmem
      · subst hmem
        unfold groupAddrs at h
        rw [hinfo] at h
        simp only [if_pos rfl] at h
        exact groupAddrs_folders_mono rest _ _ _ _ c h (mem_insertDedup_self f c)
      · unfold groupAddrs at h
        cases hr : r0.containerInfo with
        | none => rw [hr] at h; cases h
        | some ct =>
            rw [hr] at h
            exact ih _ _ _ _ r c h hmem hinfo

end Addr

/-!
Assembly helpers at the manager level.
-/

theorem SecRules.commitWrapper_trace (gw : Gateway) (fs : List String) :
    (SecRules.commit (some gw) fs).2 = [Call.commit fs] := by
  cases h : gw.commitRaw fs <;> simp [SecRules.commit, h]

theorem Addr.commitAddrWrapper_trace (gw : Gateway) (fs : List String) :
    (Addr.commit (some gw) fs).2 = [Call.commit fs] := by
  cases h : gw.commitRaw fs <;> simp [Addr.commit, h]

theorem SecRules.applyRules_commitFree (client : Option Gateway)
    (rules : List Record) (rb : String) :
    (SecRules.applyRules client rules rb).2.filter Call.isCommit = [] := by
  unfold SecRules.applyRules
  exact SecRules.applyGroups_commitFree client rb _

theorem Addr.process_commitFree (client : Option Gateway) (addresses : List Record) :
    (Addr.process_addresses client addresses).2.filter Call.isCommit = [] := by
  unfold Addr.process_addresses
  cases hg : Addr.groupAddrs addresses [] [] with
  | none => rfl
  | some fg =>
      obtain ⟨folders, gs⟩ := fg
      by_cases h : (Addr.applyAddrGroups client gs).1 = true
      · simp only [h, if_true]
        exact Addr.applyAddrGroups_commitFree client gs
      · simp only [Bool.not_eq_true] at h
        simp only [h, Bool.false_eq_true, if_false]
        exact Addr.applyAddrGroups_commitFree client gs

theorem Addr.groupAddrs_folders_sub (l : List Record) :
    ∀ f g f' g' c, Addr.groupAddrs l f g = some (f', g') → c ∈ f' →
      c ∈ f ∨ ∃ r ∈ l, r.containerInfo = some (c, "folder") := by
  induction l with
  | nil =>
      intro f g f' g' c h hc
      simp [Addr.groupAddrs] at h
      rw [← h.1] at hc
      exact Or.inl hc
  | cons r rest ih =>
      intro f g f' g' c h hc
      unfold Addr.groupAddrs at h
      cases hr : r.containerInfo with
      | none => rw [hr] at h; cases h
      | some ct =>
          rw [hr] at h
          cases ct with
          | mk cc tt =>
              by_cases ht : tt = "folder"
              · rw [ht] at h
                simp only [if_pos rfl] at h
                rcases ih _ _ _ _ c h hc with h1 | ⟨r0, hr0, h0⟩
                · rcases mem_insertDedup f cc c h1 with h1 | h1
                  · exact Or.inr ⟨r, List.mem_cons_self r rest, by rw [hr, ht, h1]⟩
                  · exact Or.inl h1
                · exact Or.inr ⟨r0, List.mem_cons_of_mem r hr0, h0⟩
              · simp only [if_neg ht] at h
                rcases ih _ _ _ _ c h hc with h1 | ⟨r0, hr0, h0⟩
                · exact Or.inl h1
                · exact Or.inr ⟨r0, List.mem_cons_of_mem r hr0, h0⟩

theorem Addr.process_none (addresses : List Record) (h : addresses ≠ []) :
    Addr.process_addresses none addresses = ((false, []), []) := by
  unfold Addr.process_addresses
  cases hg : Addr.groupAddrs addresses [] [] with
  | none => rfl
  | some fg =>
      obtain ⟨folders, gs⟩ := fg
      simp only [Addr.applyAddrGroups_none]
      have hsz := Addr.groupAddrs_sizeSum addresses [] [] folders gs hg
      have hne : gs.all (fun g => g.2.isEmpty) = false := by
        cases hall : gs.all (fun g => g.2.isEmpty) with
        | false => rfl
        | true =>
            exfalso
            have h0 := sizeSum_eq_zero gs hall
            rw [hsz] at h0
            simp only [sizeSum, List.map_nil, List.sum_nil, Nat.zero_add] at h0
            exact h (List.length_eq_zero.mp h0)
      simp [hne]

/-!
Claim theorems.
-/

/-- C1: for every declared record applied within a group, if the
name-to-remote-object map built from the container's list call contains the
record's name, the apply step calls gateway update with the declared fields
(none-valued fields omitted, via the dump) plus the existing remote object's
id injected, and issues no create call; if the name is absent, it calls
gateway create with the declared fields and issues no update call.  Holds
for both the security-rules and the address manager; the full trace equality
shows exactly the one expected call. -/
theorem C1_create_vs_update (gw : Gateway) (r : Record) (m : List RemoteObject)
    (rb : String) (hrb : SecRules.validRulebase rb = true) :
    (∀ ex, mapLookup m r.name = some ex →
       SecRules.applySingleRuleWithLookup (some gw) r m rb
         = ((gw.updateResp (r.dump ++ [("id", ex.id)])).isSome,
            [Call.update (r.dump ++ [("id", ex.id)])])
     ∧ Addr.applySingleAddressWithLookup (some gw) r m
         = ((gw.updateResp (r.dump ++ [("id", ex.id)])).isSome,
            [Call.update (r.dump ++ [("id", ex.id)])]))
    ∧ (mapLookup m r.name = none →
       SecRules.applySingleRuleWithLookup (some gw) r m rb
         = ((gw.createResp r.dump).isSome, [Call.create r.dump])
     ∧ Addr.applySingleAddressWithLookup (some gw) r m
         = ((gw.createResp r.dump).isSome, [Call.create r.dump])) := by
  constructor
  · intro ex hex
    constructor
    · rw [SecRules.applySingle_eq gw r m rb hrb]
      unfold resultOk eventOf
      rw [hex]
    · rw [Addr.applySingleAddress_eq gw r m]
      unfold resultOk eventOf
      rw [hex]
  · intro hnone
    constructor
    · rw [SecRules.applySingle_eq gw r m rb hrb]
      unfold resultOk eventOf
      rw [hnone]
    · rw [Addr.applySingleAddress_eq gw r m]
      unfold resultOk eventOf
      rw [hnone]

/-- Witness for C1: folder DMZ already holds web-server-1, so applying the
record of the same name issues exactly one update carrying the injected id
and no create; a record under a name map without it issues exactly one
create. -/
theorem C1_create_vs_update_witness :
    (SecRules.applySingleRuleWithLookup (some gwDMZ) recWeb [objWeb] "pre"
       = (true, [Call.update (recWeb.dump ++ [("id", "id-1")])])
     ∧ Addr.applySingleAddressWithLookup (some gwDMZ) recWeb [objWeb]
       = (true, [Call.update (recWeb.dump ++ [("id", "id-1")])]))
    ∧ (SecRules.applySingleRuleWithLookup (some gwDMZ) recA1 [] "pre"
       = (true, [Call.create recA1.dump])
     ∧ Addr.applySingleAddressWithLookup (some gwDMZ) recA1 []
       = (true, [Call.create recA1.dump])) := by
  constructor
  · have h := (C1_create_vs_update gwDMZ recWeb [objWeb] "pre" (by decide)).1
      objWeb (by decide)
    exact ⟨by rw [h.1]; decide, by rw [h.2]; decide⟩
  · have h := (C1_create_vs_update gwDMZ recA1 [] "pre" (by decide)).2 (by decide)
    exact ⟨by rw [h.1]; decide, by rw [h.2]; decide⟩

/-- C2: a commit result is treated as success exactly when job_id is present
(truthy) and status is SUCCESS or absent; a transport exception during the
commit call is caught and converted into a FAILED result carrying the error
message (and still counts as failure), in both managers; and in the run
driver the final flag of a committing run equals this check applied to the
commit result. -/
theorem C2_commit_interpretation :
    (∀ d : CommitDict,
       commit_success_check d = true ↔
         (pyTruthy d.job_id = true ∧ (d.status = some "SUCCESS" ∨ d.status = none)))
    ∧ (∀ (gw : Gateway) (fs : List String) (e : String), gw.commitRaw fs = .error e →
         SecRules.commit (some gw) fs
           = ({ status := some "FAILED", job_id := none, error := some e },
              [Call.commit fs])
       ∧ Addr.commit (some gw) fs
           = ({ status := some "FAILED", job_id := none, error := some e },
              [Call.commit fs])
       ∧ commit_success_check
           { status := some "FAILED", job_id := none, error := some e } = false)
    ∧ (∀ (gw : Gateway) (file : FileInput) (rb : String) (rules : List Record)
         (folders : List String) (trace : List Call),
         SecRules.load_rules_from_file file = rules → rules ≠ [] →
         SecRules.applyRules (some gw) rules rb = ((true, folders), trace) →
         folders ≠ [] →
         (SecRules.apply_rules_from_file (some gw) file rb true).1
           = commit_success_check (SecRules.commit (some gw) folders).1) := by
  refine ⟨?_, ?_, ?_⟩
  · intro d
    unfold commit_success_check
    rw [Bool.and_eq_true, Bool.or_eq_true]
    constructor
    · rintro ⟨h1, h2⟩
      refine ⟨h1, ?_⟩
      rcases h2 with h2 | h2
      · exact Or.inl (by simpa using h2)
      · exact Or.inr (by simpa using h2)
    · rintro ⟨h1, h2⟩
      refine ⟨h1, ?_⟩
      rcases h2 with h2 | h2
      · exact Or.inl (by simpa using h2)
      · exact Or.inr (by simpa using h2)
  · intro gw fs e he
    refine ⟨?_, ?_, rfl⟩
    · have hred : SecRules.commit (some gw) fs
          = (match gw.commitRaw fs with
             | .ok d => (d, [Call.commit fs])
             | .error e =>
                 ({ status := some "FAILED", job_id := none, error := some e },
                  [Call.commit fs])) := rfl
      rw [hred, he]
    · have hred : Addr.commit (some gw) fs
          = (match gw.commitRaw fs with
             | .ok d => (d, [Call.commit fs])
             | .error e =>
                 ({ status := some "FAILED", job_id := none, error := some e },
                  [Call.commit fs])) := rfl
      rw [hred, he]
  · intro gw file rb rules folders trace hload hne happ hfe
    have hemp : rules.isEmpty = false := by
      cases rules with
      | nil => exact absurd rfl hne
      | cons a l => rfl
    have hfemp : folders.isEmpty = false := by
      cases folders with
      | nil => exact absurd rfl hfe
      | cons a l => rfl
    unfold SecRules.apply_rules_from_file
    simp only [hload, hemp, Bool.false_eq_true, if_false, happ, hfemp, Bool.not_false,
      Bool.and_true, Bool.true_and, if_true]
    cases hcheck : commit_success_check (SecRules.commit (some gw) folders).1 <;>
      simp [hcheck]

/-- C3 counterexample: the claim says a record with no resolvable container
fails the entire batch with no create or update call issued for any record.
In the security-rules manager this is false: with the unroutable record
first in the batch, a list call and a create call are still issued for the
routable record. -/
theorem C3_fail_fast_counterexample :
    recNoContainer.containerInfo = none
    ∧ (SecRules.applyRules (some gwOk) [recNoContainer, recA1] "pre").2
        = [Call.list "A" "folder" true, Call.create recA1.dump] := by decide

/-- C3 amended: the address manager behaves as claimed: any record with no
resolvable container makes the whole batch fail immediately, with no gateway
call at all and an empty affected-folders set.  The security-rules manager
instead only reports failure for the run, skipping the unrouted record
per-record while still applying the routable ones. -/
theorem C3_fail_fast_amended :
    (∀ (client : Option Gateway) (addresses : List Record),
       (∃ r ∈ addresses, r.containerInfo = none) →
       Addr.process_addresses client addresses = ((false, []), []))
    ∧ (∀ (client : Option Gateway) (rules : List Record) (rb : String),
       (∃ r ∈ rules, r.containerInfo = none) →
       (SecRules.applyRules client rules rb).1.1 = false) := by
  constructor
  · intro client addresses h
    unfold Addr.process_addresses
    rw [Addr.groupAddrs_unroutable addresses [] [] h]
  · intro client rules rb h
    have hp := SecRules.groupPhase_unroutable rules true [] [] h
    simp [SecRules.applyRules, hp]

/-- Witness for C3 amended at a concrete batch with one unroutable record. -/
theorem C3_fail_fast_amended_witness :
    Addr.process_addresses (some gwOk) [recNoContainer, recA1] = ((false, []), [])
    ∧ (SecRules.applyRules (some gwOk) [recNoContainer, recA1] "pre").1.1 = false := by
  constructor
  · exact C3_fail_fast_amended.1 (some gwOk) [recNoContainer, recA1]
      ⟨recNoContainer, by decide⟩
  · exact C3_fail_fast_amended.2 (some gwOk) [recNoContainer, recA1] "pre"
      ⟨recNoContainer, by decide⟩

/-- C4 counterexample: the claim says a failing gateway call is converted to
a per-record failure and apply processing still runs for every remaining
record.  In the address manager this is false: when the create for the first
record raises, the run aborts and the second record of the same folder never
receives an apply call. -/
theorem C4_best_effort_counterexample :
    Addr.process_addresses (some gwFailCreate) [recA1, recA2]
      = ((false, []), [Call.list "A" "folder" true, Call.create recA1.dump])
    ∧ Call.create recA2.dump
        ∉ (Addr.process_addresses (some gwFailCreate) [recA1, recA2]).2 := by decide

/-- C4 amended: in the security-rules manager the claim holds: every
routable record receives exactly one create-or-update call (their number
equals the routable-record count regardless of failures), and a successful
overall flag forces every routable record's gateway call to have succeeded,
so any failure flips the flag.  In the address manager a failing call is
still caught and becomes a false flag (the loop flag equals the conjunction
of the per-record outcomes over the prefix it ran), but the batch aborts at
the first failure instead of continuing. -/
theorem C4_best_effort_amended :
    (∀ (gw : Gateway) (rules : List Record) (rb : String),
       SecRules.validRulebase rb = true →
       ((SecRules.applyRules (some gw) rules rb).2.filter Call.isApply).length
         = routableCount rules)
    ∧ (∀ (gw : Gateway) (rules : List Record) (rb : String),
       SecRules.validRulebase rb = true →
       (SecRules.applyRules (some gw) rules rb).1.1 = true →
       ∀ r ∈ rules, ∀ c t, r.containerInfo = some (c, t) →
         resultOk gw (gw.listResult c t true) r = true)
    ∧ (∀ (gw : Gateway) (m : List RemoteObject) (rs : List Record),
       (Addr.applyAddrRecords (some gw) m rs).1 = rs.all (resultOk gw m)) := by
  refine ⟨?_, ?_, ?_⟩
  · intro gw rules rb hrb
    have hct := SecRules.groupPhase_ctype_valid rules true [] [] (by simp)
    have h1 := SecRules.applyGroups_applyCount gw rb _ hrb hct
    have h2 := SecRules.groupPhase_sizeSum rules true [] []
    unfold SecRules.applyRules
    simp only
    rw [h1, h2]
    simp [sizeSum]
  · intro gw rules rb hrb hsucc r hr c t hinfo
    have hct := SecRules.groupPhase_ctype_valid rules true [] [] (by simp)
    unfold SecRules.applyRules at hsucc
    simp only [Bool.and_eq_true] at hsucc
    have hall := hsucc.2
    rw [SecRules.applyGroups_fst gw rb _ hrb hct] at hall
    obtain ⟨gr, hgr, hk, hrmem⟩ :=
      SecRules.groupPhase_mem rules true [] [] r (c, t) hr hinfo
    have hgall := (List.all_eq_true.mp hall) gr hgr
    simp only at hgall
    rw [hk] at hgall
    exact (List.all_eq_true.mp hgall) r hrmem
  · intro gw m rs
    exact Addr.applyAddrRecords_fst gw m rs

/-- Witness for C4 amended: a two-folder batch with every create failing
still issues two apply calls in the security-rules manager; a fully
successful one-record run certifies its record's call succeeded; and the
address loop flag is false on a failing batch. -/
theorem C4_best_effort_amended_witness :
    ((SecRules.applyRules (some gwFailCreate) [recA1, recB1] "pre").2.filter
        Call.isApply).length = 2
    ∧ resultOk gwOk (gwOk.listResult "A" "folder" true) recA1 = true
    ∧ (Addr.applyAddrRecords (some gwFailCreate) [] [recA1, recA2]).1 = false := by
  refine ⟨?_, ?_, ?_⟩
  · have h := C4_best_effort_amended.1 gwFailCreate [recA1, recB1] "pre" (by decide)
    rw [h]
    decide
  · exact C4_best_effort_amended.2.1 gwOk [recA1] "pre" (by decide) (by decide)
      recA1 (by decide) "A" "folder" (by decide)
  · rw [C4_best_effort_amended.2.2 gwFailCreate [] [recA1, recA2]]
    decide

/-- C5 counterexample: the claim says a record whose resolved container kind
is folder always leaves its folder in the returned affected-folders set,
regardless of apply outcome.  In the address manager this is false: when the
create for the record fails the run returns an empty set. -/
theorem C5_folder_tracking_counterexample :
    recX.containerInfo = some ("X", "folder")
    ∧ "X" ∉ (Addr.process_addresses (some gwFailCreate) [recX]).1.2 := by decide

/-- C5 amended: in the security-rules manager the claim holds: every record
resolving to a folder container contributes its folder to the returned set,
for any client and any gateway outcome.  In the address manager it holds
only for runs whose flag is true: a failing run discards the set and
returns it empty. -/
theorem C5_folder_tracking_amended :
    (∀ (client : Option Gateway) (rules : List Record) (rb : String)
       (r : Record) (c : String), r ∈ rules →
       r.containerInfo = some (c, "folder") →
       c ∈ (SecRules.applyRules client rules rb).1.2)
    ∧ (∀ (gw : Gateway) (addresses : List Record) (r : Record) (c : String),
       (Addr.process_addresses (some gw) addresses).1.1 = true →
       r ∈ addresses → r.containerInfo = some (c, "folder") →
       c ∈ (Addr.process_addresses (some gw) addresses).1.2) := by
  constructor
  · intro client rules rb r c hr hinfo
    unfold SecRules.applyRules
    simp only
    exact SecRules.groupPhase_folder_mem rules true [] [] r c hr hinfo
  · intro gw addresses r c hsucc hr hinfo
    unfold Addr.process_addresses at hsucc ⊢
    cases hg : Addr.groupAddrs addresses [] [] with
    | none =>
        rw [hg] at hsucc
        simp at hsucc
    | some fg =>
        obtain ⟨folders, gs⟩ := fg
        by_cases ha : (Addr.applyAddrGroups (some gw) gs).1 = true
        · simp only [ha, if_true]
          exact Addr.groupAddrs_folder_mem addresses [] [] folders gs r c hg hr hinfo
        · simp only [Bool.not_eq_true] at ha
          rw [hg] at hsucc
          simp [ha] at hsucc

/-- Witness for C5 amended: the folder of a failing create is still tracked
by the security-rules manager, and a successful address run tracks the
folder of its record. -/
theorem C5_folder_tracking_amended_witness :
    "A" ∈ (SecRules.applyRules (some gwFailCreate) [recA1] "pre").1.2
    ∧ "DMZ" ∈ (Addr.process_addresses (some gwDMZ) [recWeb]).1.2 := by
  constructor
  · exact C5_folder_tracking_amended.1 (some gwFailCreate) [recA1] "pre" recA1 "A"
      (by decide) (by decide)
  · exact C5_folder_tracking_amended.2 gwDMZ [recWeb] recWeb "DMZ"
      (by decide) (by decide) (by decide)

/-- C6 counterexample: the claim says the number of list calls always equals
the number of distinct container pairs among the records.  In the address
manager a batch of two routable records in two folders whose first create
raises issues only one list call against two distinct pairs. -/
theorem C6_grouping_counterexample :
    (∀ r ∈ [recA1, recB1], r.containerInfo.isSome = true)
    ∧ ((Addr.process_addresses (some gwFailCreate) [recA1, recB1]).2.filter
        Call.isList).length = 1
    ∧ (distinctContainerKeys [recA1, recB1] []).length = 2 := by decide

/-- C6 amended: in the security-rules manager the list events of any run are
exactly one exact-match list call per distinct (container, kind) pair, in
first-occurrence order; the address manager satisfies the same equation only
for runs whose flag is true, because it aborts on the first failure before
listing the remaining containers. -/
theorem C6_grouping_amended :
    (∀ (gw : Gateway) (rules : List Record) (rb : String),
       SecRules.validRulebase rb = true →
       (SecRules.applyRules (some gw) rules rb).2.filter Call.isList
         = (distinctContainerKeys rules []).map (fun k => Call.list k.1 k.2 true))
    ∧ (∀ (gw : Gateway) (addresses : List Record),
       (Addr.process_addresses (some gw) addresses).1.1 = true →
       (Addr.process_addresses (some gw) addresses).2.filter Call.isList
         = (distinctContainerKeys addresses []).map (fun k => Call.list k.1 k.2 true)) := by
  constructor
  · intro gw rules rb hrb
    have hct := SecRules.groupPhase_ctype_valid rules true [] [] (by simp)
    have h1 := SecRules.applyGroups_listEvents gw rb _ hrb hct
    have h2 := SecRules.groupPhase_keys rules true [] []
    unfold SecRules.applyRules
    simp only
    rw [h1]
    have h3 : (fun (g : (String × String) × List Record) => Call.list g.1.1 g.1.2 true)
        = (fun (k : String × String) => Call.list k.1 k.2 true) ∘ (fun g => g.1) := rfl
    rw [h3, ← List.map_map, h2]
    rfl
  · intro gw addresses hsucc
    unfold Addr.process_addresses at hsucc ⊢
    cases hg : Addr.groupAddrs addresses [] [] with
    | none =>
        rw [hg] at hsucc
        simp at hsucc
    | some fg =>
        obtain ⟨folders, gs⟩ := fg
        rw [hg] at hsucc
        by_cases ha : (Addr.applyAddrGroups (some gw) gs).1 = true
        · simp only [ha, if_true]
          rw [Addr.applyAddrGroups_listEvents_ok gw gs ha]
          have h2 := Addr.groupAddrs_keys addresses [] [] folders gs hg
          have h3 : (fun (g : (String × String) × List Record) => Call.list g.1.1 g.1.2 true)
              = (fun (k : String × String) => Call.list k.1 k.2 true) ∘ (fun g => g.1) := rfl
          rw [h3, ← List.map_map, h2]
          rfl
        · simp only [Bool.not_eq_true] at ha
          simp [ha] at hsucc

/-- Witness for C6 amended: a three-record two-folder batch issues exactly
the two expected list calls in the security-rules manager, and a successful
address run issues its one expected list call. -/
theorem C6_grouping_amended_witness :
    (SecRules.applyRules (some gwOk) [recA1, recB1, recA2] "pre").2.filter Call.isList
      = [Call.list "A" "folder" true, Call.list "B" "folder" true]
    ∧ (Addr.process_addresses (some gwDMZ) [recWeb]).2.filter Call.isList
      = [Call.list "DMZ" "folder" true] := by
  constructor
  · have h := C6_grouping_amended.1 gwOk [recA1, recB1, recA2] "pre" (by decide)
    rw [h]
    decide
  · have h := C6_grouping_amended.2 gwDMZ [recWeb] (by decide)
    rw [h]
    decide

/-- C7: with commit requested and a run whose apply phase succeeded, both
managers issue exactly one commit call, carrying the whole affected-folders
set as one batch, when that set is non-empty, and no commit call at all when
it is empty; and the affected set is empty whenever no record of the batch
resolves to a folder-kind container (snippet-only or device-only batches),
so such batches are never committed. -/
theorem C7_commit_batching :
    (∀ (gw : Gateway) (file : FileInput) (rb : String) (rules : List Record)
       (folders : List String) (trace : List Call),
       SecRules.load_rules_from_file file = rules → rules ≠ [] →
       SecRules.applyRules (some gw) rules rb = ((true, folders), trace) →
       (SecRules.apply_rules_from_file (some gw) file rb true).2.filter Call.isCommit
         = (if folders.isEmpty then [] else [Call.commit folders]))
    ∧ (∀ (gw : Gateway) (file : FileInput) (addresses : List Record)
       (folders : List String) (trace : List Call),
       Addr.load_addresses_from_file file = .ok addresses → addresses ≠ [] →
       Addr.process_addresses (some gw) addresses = ((true, folders), trace) →
       ∃ out, Addr.apply_addresses_from_file (some gw) file true = .ok out
         ∧ out.2.filter Call.isCommit
             = (if folders.isEmpty then [] else [Call.commit folders]))
    ∧ (∀ (client : Option Gateway) (rules : List Record) (rb : String),
       (∀ r ∈ rules, ∀ c : String, ¬r.containerInfo = some (c, "folder")) →
       (SecRules.applyRules client rules rb).1.2 = [])
    ∧ (∀ (addresses : List Record) (folders : List String)
       (gs : List ((String × String) × List Record)),
       Addr.groupAddrs addresses [] [] = some (folders, gs) →
       (∀ r ∈ addresses, ∀ c : String, ¬r.containerInfo = some (c, "folder")) →
       folders = []) := by
  refine ⟨?_, ?_, ?_, ?_⟩
  · intro gw file rb rules folders trace hload hne happ
    have hemp : rules.isEmpty = false := by
      cases rules with
      | nil => exact absurd rfl hne
      | cons a l => rfl
    have htr : trace.filter Call.isCommit = [] := by
      have h0 := SecRules.applyRules_commitFree (some gw) rules rb
      rw [happ] at h0
      exact h0
    unfold SecRules.apply_rules_from_file
    simp only [hload, hemp, Bool.false_eq_true, if_false, happ, Bool.true_and,
      Bool.and_true]
    by_cases hfe : folders.isEmpty
    · simp only [hfe, Bool.not_true, Bool.false_eq_true, if_false, htr]
      simp
    · simp only [Bool.not_eq_true] at hfe
      simp only [hfe, Bool.not_false, if_true]
      have hcr := SecRules.commitWrapper_trace gw folders
      cases hcheck : commit_success_check (SecRules.commit (some gw) folders).1 <;>
        simp [hcheck, List.filter_append, htr, hcr, Call.isCommit]
  · intro gw file addresses folders trace hload hne happ
    have hemp : addresses.isEmpty = false := by
      cases addresses with
      | nil => exact absurd rfl hne
      | cons a l => rfl
    have htr : trace.filter Call.isCommit = [] := by
      have h0 := Addr.process_commitFree (some gw) addresses
      rw [happ] at h0
      exact h0
    unfold Addr.apply_addresses_from_file
    simp only [hload, hemp, Bool.false_eq_true, if_false, happ, Bool.not_true]
    by_cases hfe : folders.isEmpty
    · refine ⟨(true, trace), ?_, by simp [hfe, htr]⟩
      simp [hfe]
    · simp only [Bool.not_eq_true] at hfe
      refine ⟨(commit_success_check (Addr.commit (some gw) folders).1,
        trace ++ (Addr.commit (some gw) folders).2), ?_, ?_⟩
      · simp [hfe]
      · rw [List.filter_append, htr, Addr.commitAddrWrapper_trace gw folders]
        simp [hfe, Call.isCommit]
  · intro client rules rb hnof
    unfold SecRules.applyRules
    simp only
    rw [List.eq_nil_iff_forall_not_mem]
    intro c hc
    rcases SecRules.groupPhase_folders_sub rules true [] [] c hc with h | ⟨r, hr, h⟩
    · simp at h
    · exact hnof r hr c h
  · intro addresses folders gs hg hnof
    rw [List.eq_nil_iff_forall_not_mem]
    intro c hc
    rcases Addr.groupAddrs_folders_sub addresses [] [] folders gs c hg hc
      with h | ⟨r, hr, h⟩
    · simp at h
    · exact hnof r hr c h

/-- Witness for C7: a one-folder run commits exactly once with its folder; a
snippet-only run resolves to an empty affected set. -/
theorem C7_commit_batching_witness :
    (SecRules.apply_rules_from_file (some gwOk)
        (FileInput.parsed [RawItem.valid recWeb]) "pre" true).2.filter Call.isCommit
      = [Call.commit ["DMZ"]]
    ∧ (∃ out, Addr.apply_addresses_from_file (some gwOk)
        (FileInput.parsed [RawItem.valid recWeb]) true = .ok out
        ∧ out.2.filter Call.isCommit = [Call.commit ["DMZ"]])
    ∧ (SecRules.applyRules (some gwOk) [recSnip] "pre").1.2 = [] := by
  refine ⟨?_, ?_, ?_⟩
  · have h := C7_commit_batching.1 gwOk (FileInput.parsed [RawItem.valid recWeb]) "pre"
      [recWeb] ["DMZ"] [Call.list "DMZ" "folder" true, Call.create recWeb.dump]
      (by decide) (by decide) (by decide)
    rw [h]
    decide
  · obtain ⟨out, hout, hfil⟩ := C7_commit_batching.2.1 gwOk
      (FileInput.parsed [RawItem.valid recWeb]) [recWeb] ["DMZ"]
      [Call.list "DMZ" "folder" true, Call.create recWeb.dump]
      (by rfl) (by decide) (by decide)
    exact ⟨out, hout, by rw [hfil]; decide⟩
  · refine C7_commit_batching.2.2.1 (some gwOk) [recSnip] "pre" ?_
    intro r hr c hcon
    rw [List.mem_singleton] at hr
    subst hr
    rw [show recSnip.containerInfo = some ("S", "snippet") from rfl] at hcon
    simp at hcon

/-- C8 counterexample: the claim says every caller can tell an empty load
apart from a validation hard-failure.  For the security-rules loader this is
false: a syntactically valid file with zero records and a file with one
invalid record both load to the same bare empty list, with no other signal
in the return value. -/
theorem C8_empty_vs_error_counterexample :
    SecRules.load_rules_from_file (FileInput.parsed []) = []
    ∧ SecRules.load_rules_from_file (FileInput.parsed [RawItem.invalid]) = [] := by
  decide

/-- C8 amended: the address loader does distinguish the two cases: a valid
empty file loads to an empty list normally while any invalid record ends the
process with exit code 1; the security-rules loader collapses every invalid
load to the same empty list it returns for a valid empty file. -/
theorem C8_empty_vs_error_amended :
    Addr.load_addresses_from_file (FileInput.parsed []) = .ok []
    ∧ (∀ items : List RawItem, RawItem.invalid ∈ items →
        Addr.load_addresses_from_file (FileInput.parsed items) = .error 1)
    ∧ (∀ items : List RawItem, RawItem.invalid ∈ items →
        SecRules.load_rules_from_file (FileInput.parsed items) = []) := by
  refine ⟨rfl, ?_, ?_⟩
  · intro items h
    have hne : items.isEmpty = false := by
      cases items with
      | nil => simp at h
      | cons a l => rfl
    have hany : items.any RawItem.isInvalid = true := by
      rw [List.any_eq_true]
      exact ⟨RawItem.invalid, h, rfl⟩
    unfold Addr.load_addresses_from_file
    simp [hne, hany]
  · intro items h
    have hany : items.any RawItem.isInvalid = true := by
      rw [List.any_eq_true]
      exact ⟨RawItem.invalid, h, rfl⟩
    unfold SecRules.load_rules_from_file
    simp [hany]

/-- Witness for C8 amended at a concrete one-invalid-record file. -/
theorem C8_empty_vs_error_amended_witness :
    Addr.load_addresses_from_file (FileInput.parsed [RawItem.valid recA1, RawItem.invalid])
      = .error 1
    ∧ SecRules.load_rules_from_file
        (FileInput.parsed [RawItem.valid recA1, RawItem.invalid]) = [] := by
  constructor
  · exact C8_empty_vs_error_amended.2.1 [RawItem.valid recA1, RawItem.invalid] (by decide)
  · exact C8_empty_vs_error_amended.2.2 [RawItem.valid recA1, RawItem.invalid] (by decide)

/-- C9: every operation of both managers, invoked while the client handle is
null, returns its graceful failure value (none, empty list, false, or a
FAILED commit dictionary) and issues no gateway call, without any unhandled
fault; the apply drivers likewise return a false flag with an empty trace.
The update-by-id wrapper of the rules manager reaches this observable
behaviour through its catch-all rather than an explicit null check. -/
theorem C9_uninitialized_client :
    (∀ (r : Record) (rb : String), SecRules.create_rule none r rb = (none, []))
    ∧ (∀ (p : List (String × String)) (rb : String),
        SecRules.update_rule_by_id none p rb = (none, []))
    ∧ (∀ (r : Record) (rb : String), SecRules.update_rule none r rb = (none, []))
    ∧ (∀ (n c t rb : String), SecRules.get_rule_by_name none n c t rb = (none, []))
    ∧ (∀ (n c t rb : String), SecRules.delete_rule none n c t rb = (false, []))
    ∧ (∀ (c t rb : String) (em : Bool), SecRules.list_rules none c t rb em = ([], []))
    ∧ (∀ (fs : List String), SecRules.commit none fs
        = ({ status := some "FAILED", job_id := none,
             error := some "SCM client not initialized" }, []))
    ∧ (∀ (file : FileInput) (rb : String) (cc : Bool),
        SecRules.apply_rules_from_file none file rb cc = (false, []))
    ∧ (∀ (r : Record), Addr.create_address none r = (none, []))
    ∧ (∀ (p : List (String × String)), Addr.update_address none p = (none, []))
    ∧ (∀ (n c t : String), Addr.get_address_by_name none n c t = (none, []))
    ∧ (∀ (c t : String) (em : Bool), Addr.list_addresses none c t em = ([], []))
    ∧ (∀ (n c t : String), Addr.delete_address none n c t = (false, []))
    ∧ (∀ (fs : List String), Addr.commit none fs
        = ({ status := some "FAILED", job_id := none,
             error := some "SCM client not initialized" }, []))
    ∧ (∀ (file : FileInput) (cc : Bool) (addrs : List Record),
        Addr.load_addresses_from_file file = .ok addrs →
        Addr.apply_addresses_from_file none file cc = .ok (false, [])) := by
  refine ⟨fun _ _ => rfl, fun _ _ => rfl, ?_, fun _ _ _ _ => rfl, fun _ _ _ _ => rfl,
    fun _ _ _ _ => rfl, fun _ => rfl, ?_, fun _ => rfl, fun _ => rfl,
    fun _ _ _ => rfl, fun _ _ _ => rfl, fun _ _ _ => rfl, fun _ => rfl, ?_⟩
  · intro r rb
    unfold SecRules.update_rule
    cases r.containerInfo <;> rfl
  · intro file rb cc
    unfold SecRules.apply_rules_from_file
    by_cases h : (SecRules.load_rules_from_file file).isEmpty <;> simp [h]
  · intro file cc addrs hload
    unfold Addr.apply_addresses_from_file
    rw [hload]
    by_cases hemp : addrs.isEmpty
    · simp [hemp]
    · have hne : addrs ≠ [] := by
        intro h0
        rw [h0] at hemp
        exact hemp rfl
      simp only [hemp, Bool.false_eq_true, if_false]
      rw [Addr.process_none addrs hne]
      rfl

/-- Witness for C9 at a concrete valid one-record file: the address apply
driver with a null client returns the false flag and an empty trace. -/
theorem C9_uninitialized_client_witness :
    Addr.apply_addresses_from_file none (FileInput.parsed [RawItem.valid recA1]) true
      = .ok (false, []) :=
  C9_uninitialized_client.2.2.2.2.2.2.2.2.2.2.2.2.2.2
    (FileInput.parsed [RawItem.valid recA1]) true [recA1] (by rfl)

/-- C10: a commit call never happens in a run whose apply phase reported
failure: with any commit-request flag, if the reconciliation step of either
manager returned a false flag, the trace of the whole apply-from-file run
contains no commit event. -/
theorem C10_failure_suppresses_commit :
    (∀ (gw : Gateway) (file : FileInput) (rb : String) (cc : Bool)
       (rules : List Record) (folders : List String) (trace : List Call),
       SecRules.load_rules_from_file file = rules →
       SecRules.applyRules (some gw) rules rb = ((false, folders), trace) →
       (SecRules.apply_rules_from_file (some gw) file rb cc).2.filter Call.isCommit
         = [])
    ∧ (∀ (gw : Gateway) (file : FileInput) (cc : Bool)
       (addresses : List Record) (folders : List String) (trace : List Call),
       Addr.load_addresses_from_file file = .ok addresses →
       Addr.process_addresses (some gw) addresses = ((false, folders), trace) →
       ∃ out, Addr.apply_addresses_from_file (some gw) file cc = .ok out
         ∧ out.2.filter Call.isCommit = []) := by
  constructor
  · intro gw file rb cc rules folders trace hload happ
    have htr : trace.filter Call.isCommit = [] := by
      have h0 := SecRules.applyRules_commitFree (some gw) rules rb
      rw [happ] at h0
      exact h0
    unfold SecRules.apply_rules_from_file
    by_cases hemp : rules.isEmpty
    · simp [hload, hemp]
    · simp only [Bool.not_eq_true] at hemp
      simp only [hload, hemp, Bool.false_eq_true, if_false, happ, Bool.and_false]
      exact htr
  · intro gw file cc addresses folders trace hload hproc
    have htr : trace.filter Call.isCommit = [] := by
      have h0 := Addr.process_commitFree (some gw) addresses
      rw [hproc] at h0
      exact h0
    unfold Addr.apply_addresses_from_file
    rw [hload]
    by_cases hemp : addresses.isEmpty
    · exact ⟨(false, []), by simp [hemp], by simp⟩
    · refine ⟨(false, trace), ?_, htr⟩
      simp only [hemp, Bool.false_eq_true, if_false, hproc]
      simp

/-- Witness for C10: a run whose only record's create raises, with commit
requested, issues no commit call in either manager. -/
theorem C10_failure_suppresses_commit_witness :
    (SecRules.apply_rules_from_file (some gwFailCreate)
        (FileInput.parsed [RawItem.valid recA1]) "pre" true).2.filter Call.isCommit
      = []
    ∧ (∃ out, Addr.apply_addresses_from_file (some gwFailCreate)
        (FileInput.parsed [RawItem.valid recA1]) true = .ok out
        ∧ out.2.filter Call.isCommit = []) := by
  constructor
  · exact C10_failure_suppresses_commit.1 gwFailCreate
      (FileInput.parsed [RawItem.valid recA1]) "pre" true [recA1] ["A"]
      [Call.list "A" "folder" true, Call.create recA1.dump] (by decide) (by decide)
  · exact C10_failure_suppresses_commit.2 gwFailCreate
      (FileInput.parsed [RawItem.valid recA1]) true [recA1] []
      [Call.list "A" "folder" true, Call.create recA1.dump] (by rfl) (by decide)

/-- Witness for C2: a raising commit transport is converted to a FAILED
dictionary in both managers, and a successful one-record run with a commit
request ends with the flag the success check assigns to the commit result. -/
theorem C2_commit_interpretation_witness :
    (SecRules.commit (some gwRaise) ["DMZ"]
       = ({ status := some "FAILED", job_id := none, error := some "boom" },
          [Call.commit ["DMZ"]])
     ∧ Addr.commit (some gwRaise) ["DMZ"]
       = ({ status := some "FAILED", job_id := none, error := some "boom" },
          [Call.commit ["DMZ"]]))
    ∧ (SecRules.apply_rules_from_file (some gwOk)
         (FileInput.parsed [RawItem.valid recWeb]) "pre" true).1
       = commit_success_check (SecRules.commit (some gwOk) ["DMZ"]).1 := by
  constructor
  · have h := C2_commit_interpretation.2.1 gwRaise ["DMZ"] "boom" rfl
    exact ⟨h.1, h.2.1⟩
  · exact C2_commit_interpretation.2.2 gwOk (FileInput.parsed [RawItem.valid recWeb])
      "pre" [recWeb] ["DMZ"] [Call.list "DMZ" "folder" true, Call.create recWeb.dump]
      (by decide) (by decide) (by decide) (by decide)

end ScmCicd
